import Mathlib

/-!
Shallow embedding of the transactional task queue in
`src/h/services/task_queue.py` (class `TaskQueue`) together with the parts of
the data model it relies on (`src/h/models/task_queue.py`).

Timestamps are modelled as natural numbers (only comparison and equality
matter to the code).  The Postgres tables backing the queue and the primary
store become Lean lists; Elasticsearch results become a list of hits.  The
side effects of `eat` (the two bulk reads, the queue deletions and the call to
the batch indexer) are recorded in an explicit effect trace, and an uncaught
Python exception becomes an `error` field in the result.
-/

namespace H

/-- A row of the `task_queue` table (`src/h/models/task_queue.py`).
`kwargs` is the JSONB payload, a map from string keys to string values (the
only value the code ever stores or reads is an annotation id, a string). -/
structure Task where
  id : Nat
  enqueued_at : Nat
  scheduled_at : Nat
  tag : String
  kwargs : List (String × String)
deriving DecidableEq, Repr

/-- The projection of an annotation row that `_get_annotations_from_db`
selects: `Annotation.id, Annotation.updated, Annotation.deleted`.  The
`updated` column is non-nullable, so it is a plain timestamp. -/
structure Annot where
  id : String
  updated : Nat
  deleted : Bool
deriving DecidableEq, Repr

/-- An Elasticsearch hit as returned by the search in
`_get_annotations_from_es`: the document id together with the `_source`
restricted to the `updated` field.  `sourceUpdated` is `none` when the
document has no `updated` field at all and `some s` when the field holds the
raw string `s` (an ISO timestamp in practice). -/
structure EsHit where
  id : String
  sourceUpdated : Option String
deriving DecidableEq, Repr

/-- The ordering of the claim query: `order_by(Task.enqueued_at)`. -/
def byEnqueuedAt (a b : Task) : Prop :=
  a.enqueued_at ≤ b.enqueued_at

instance : DecidableRel byEnqueuedAt := fun a b => Nat.decLe a.enqueued_at b.enqueued_at

instance : IsTotal Task byEnqueuedAt :=
  ⟨fun a b => Nat.le_total a.enqueued_at b.enqueued_at⟩

instance : IsTrans Task byEnqueuedAt :=
  ⟨fun _ _ _ hab hbc => Nat.le_trans hab hbc⟩

/-- The rows the claim query scans, in scan order: tasks with
`scheduled_at < now` (the `filter`), ordered ascending by `enqueued_at`
(the `order_by`, a stable sort). -/
def dueCandidates (queue : List Task) (now : Nat) : List Task :=
  (queue.filter (fun t => t.scheduled_at < now)).insertionSort byEnqueuedAt

/-- `TaskQueue._get_messages_from_queue`: select the tasks with
`scheduled_at < now`, ordered ascending by `enqueued_at`, limited to
`limit` rows.  (`FOR UPDATE SKIP LOCKED` is modelled separately, in the
claiming model below.) -/
def getMessagesFromQueue (queue : List Task) (now limit : Nat) : List Task :=
  (dueCandidates queue now).take limit

/-- `TaskQueue._get_annotations_from_db`: the dict
`{a.id: a for a in query(...).filter(id.in_(ids))}`, as an association
list keyed by annotation id. -/
def getAnnotationsFromDb (db : List Annot) (ids : List String) :
    List (String × Annot) :=
  (db.filter (fun a => a.id ∈ ids)).map (fun a => (a.id, a))

/-- `TaskQueue._get_annotations_from_es`: fetch the hits whose ids are in
`ids`, then normalize each hit: `updated = hit["_source"].get("updated")`
followed by `updated = isoparse(updated).replace(tzinfo=None) if updated
else None`.  `parse` stands for `isoparse ∘ strip-tzinfo`; a missing field
and the falsy empty string both normalize to `none`. -/
def getAnnotationsFromEs (parse : String → Nat) (es : List EsHit)
    (ids : List String) : List (String × Option Nat) :=
  (es.filter (fun h => h.id ∈ ids)).map (fun h =>
    (h.id,
      match h.sourceUpdated with
      | some s => if s ≠ "" then some (parse s) else none
      | none => none))

/-- The disposition `eat` assigns to a claimed task: the code appends the
message to `deleted`, `to_index` or `succeeded`. -/
inductive Disposition where
  | obsolete
  | needsIndex
  | consistent
deriving DecidableEq, Repr

/-- The `if/elif/else` chain in `TaskQueue.eat` classifying one message, given
the dicts built by `_get_annotations_from_db` and (normalized)
`_get_annotations_from_es`:
`if not annotation_from_db` / `elif annotation_from_db.deleted` /
`elif not annotation_from_es` /
`elif annotation_from_es["updated"] != annotation_from_db.updated` / `else`. -/
def classifyTask (dbm : List (String × Annot)) (esm : List (String × Option Nat))
    (annId : String) : Disposition :=
  match dbm.lookup annId with
  | none => .obsolete
  | some a =>
    if a.deleted then .obsolete
    else
      match esm.lookup annId with
      | none => .needsIndex
      | some esUpdated =>
        if esUpdated ≠ some a.updated then .needsIndex else .consistent

/-- `message.kwargs["annotation_id"]`: a `KeyError` becomes an `error`. -/
def lookupAnnotationId (m : Task) : Except String String :=
  match m.kwargs.lookup "annotation_id" with
  | some v => .ok v
  | none => .error "KeyError: annotation_id"

/-- A Python list comprehension `[f(x) for x in xs]` over a fallible `f`:
evaluated left to right, the first exception propagates. -/
def mapExcept (f : α → Except String β) : List α → Except String (List β)
  | [] => .ok []
  | a :: as =>
    match f a with
    | .error e => .error e
    | .ok b =>
      match mapExcept f as with
      | .error e => .error e
      | .ok bs => .ok (b :: bs)

/-- The classification loop of `eat`: builds the `deleted`, `to_index` and
`succeeded` lists in iteration order, re-reading
`message.kwargs["annotation_id"]` for each message. -/
def eatLoop (dbm : List (String × Annot)) (esm : List (String × Option Nat)) :
    List Task → Except String (List Task × List Task × List Task)
  | [] => .ok ([], [], [])
  | m :: ms =>
    match lookupAnnotationId m with
    | .error e => .error e
    | .ok annId =>
      match eatLoop dbm esm ms with
      | .error e => .error e
      | .ok (d, ti, s) =>
        match classifyTask dbm esm annId with
        | .obsolete => .ok (m :: d, ti, s)
        | .needsIndex => .ok (d, m :: ti, s)
        | .consistent => .ok (d, ti, m :: s)

/-- One observable side effect of a run of `eat`. -/
inductive Effect where
  | fetchDb (ids : List String)
  | fetchEs (ids : List String)
  | deleteTask (t : Task)
  | indexCall (ids : List String)
deriving DecidableEq, Repr

/-- The outcome of a run of `eat`: the effects it performed, in order, and
the exception it raised, if any. -/
structure EatTrace where
  effects : List Effect
  error : Option String
deriving DecidableEq, Repr

/-- `TaskQueue.eat`: claim due messages, return immediately if none, read the
annotation ids out of the payloads, bulk-read Postgres and Elasticsearch,
classify every message, delete the `deleted + succeeded` messages from the
queue and, if `to_index` is non-empty, call
`batch_indexer.index([m.kwargs["annotation_id"] for m in to_index])`. -/
def eat (parse : String → Nat) (queue : List Task) (now limit : Nat)
    (db : List Annot) (es : List EsHit) : EatTrace :=
  let messages := getMessagesFromQueue queue now limit
  if messages.isEmpty then { effects := [], error := none }
  else
    match mapExcept lookupAnnotationId messages with
    | .error e => { effects := [], error := some e }
    | .ok annotationIds =>
      let dbm := getAnnotationsFromDb db annotationIds
      let esm := getAnnotationsFromEs parse es annotationIds
      let reads : List Effect := [.fetchDb annotationIds, .fetchEs annotationIds]
      match eatLoop dbm esm messages with
      | .error e => { effects := reads, error := some e }
      | .ok (deleted, toIndex, succeeded) =>
        let deletions := (deleted ++ succeeded).map Effect.deleteTask
        if toIndex.isEmpty then
          { effects := reads ++ deletions, error := none }
        else
          match mapExcept lookupAnnotationId toIndex with
          | .error e => { effects := reads ++ deletions, error := some e }
          | .ok ids =>
            { effects := reads ++ deletions ++ [.indexCall ids], error := none }

/-- The queue rows still present after the deletions recorded in a trace. -/
def queueAfter (queue : List Task) (tr : EatTrace) : List Task :=
  queue.filter (fun t => .deleteTask t ∉ tr.effects)

/-- `TaskQueue.add_all`: default `scheduled_at` to the current time, then
insert one `Task` per annotation id, with `tag`, the chosen schedule and
payload `{"annotation_id": id}`.  The `id` and `enqueued_at` columns are
assigned by the database: consecutive ids from `firstId` and the insertion
time `now`. -/
def add_all (queue : List Task) (annotation_ids : List String) (tag : String)
    (scheduled_at : Option Nat) (now firstId : Nat) : List Task :=
  let sched := match scheduled_at with
    | some t => t
    | none => now
  queue ++ ((List.range annotation_ids.length).zip annotation_ids).map
    (fun p =>
      { id := firstId + p.1
        enqueued_at := now
        scheduled_at := sched
        tag := tag
        kwargs := [("annotation_id", p.2)] })

/-- `TaskQueue.add`: `self.add_all([annotation_id], tag, scheduled_at)`. -/
def add (queue : List Task) (annotation_id : String) (tag : String)
    (scheduled_at : Option Nat) (now firstId : Nat) : List Task :=
  add_all queue [annotation_id] tag scheduled_at now firstId

/-! ### Row-lock model of `FOR UPDATE SKIP LOCKED`

A claim query scans the eligible rows in order and takes row-level locks.  A
consumer executing `ClaimDue` is a `Claimer`: the candidate rows it has not
yet examined, the ids of the rows it has locked so far, and its `LIMIT`.  Two
concurrent claimers interleave row-granular steps: a row lock is acquired only
if no open transaction holds it, and a row locked by the other transaction is
skipped without blocking.  Locks are never released while both transactions
stay open, which is the situation the concurrency contract speaks about. -/

/-- One consumer in the middle of a `ClaimDue` scan. -/
structure Claimer where
  pending : List Task
  acquired : List Nat
  lim : Nat
deriving DecidableEq, Repr

/-- A fresh claimer about to run `_get_messages_from_queue` over `queue`. -/
def Claimer.initFor (queue : List Task) (now limit : Nat) : Claimer :=
  { pending := dueCandidates queue now, acquired := [], lim := limit }

/-- Two concurrent claiming transactions over the same queue table. -/
structure ClaimSys where
  c1 : Claimer
  c2 : Claimer
deriving DecidableEq, Repr

/-- Row-granular interleaving of two concurrent claim scans.  `acq` steps
lock the next candidate row when nobody holds its lock and the claimer is
still under its limit; `skip` steps pass over a row locked by the other
transaction (`SKIP LOCKED`). -/
inductive ClaimStep : ClaimSys → ClaimSys → Prop where
  | acq1 (s : ClaimSys) (t : Task) (rest : List Task)
      (hp : s.c1.pending = t :: rest)
      (hlim : s.c1.acquired.length < s.c1.lim)
      (h1 : t.id ∉ s.c1.acquired) (h2 : t.id ∉ s.c2.acquired) :
      ClaimStep s { s with
        c1 := { pending := rest, acquired := s.c1.acquired ++ [t.id],
                lim := s.c1.lim } }
  | skip1 (s : ClaimSys) (t : Task) (rest : List Task)
      (hp : s.c1.pending = t :: rest)
      (h2 : t.id ∈ s.c2.acquired) :
      ClaimStep s { s with c1 := { s.c1 with pending := rest } }
  | acq2 (s : ClaimSys) (t : Task) (rest : List Task)
      (hp : s.c2.pending = t :: rest)
      (hlim : s.c2.acquired.length < s.c2.lim)
      (h1 : t.id ∉ s.c1.acquired) (h2 : t.id ∉ s.c2.acquired) :
      ClaimStep s { s with
        c2 := { pending := rest, acquired := s.c2.acquired ++ [t.id],
                lim := s.c2.lim } }
  | skip2 (s : ClaimSys) (t : Task) (rest : List Task)
      (hp : s.c2.pending = t :: rest)
      (h1 : t.id ∈ s.c1.acquired) :
      ClaimStep s { s with c2 := { s.c2 with pending := rest } }

/-! ### Spec-side disposition predicates

The three dispositions in the words of the specification, to be compared with
the code's `classifyTask`. -/

/-- Spec: obsolete — entity absent from the primary-store result, or present
with its deleted flag set. -/
def ObsoleteSpec (dbm : List (String × Annot)) (annId : String) : Prop :=
  dbm.lookup annId = none ∨ ∃ a, dbm.lookup annId = some a ∧ a.deleted = true

/-- Spec: needs-index — entity present and not deleted, and either absent
from the index result or the index `updated` marker differs (by inequality)
from the primary `updated` marker. -/
def NeedsIndexSpec (dbm : List (String × Annot)) (esm : List (String × Option Nat))
    (annId : String) : Prop :=
  ∃ a, dbm.lookup annId = some a ∧ a.deleted = false ∧
    (esm.lookup annId = none ∨
      ∃ u, esm.lookup annId = some u ∧ u ≠ some a.updated)

/-- Spec: already-consistent — entity present, not deleted, and the index
`updated` marker equals the primary `updated` marker exactly. -/
def ConsistentSpec (dbm : List (String × Annot)) (esm : List (String × Option Nat))
    (annId : String) : Prop :=
  ∃ a, dbm.lookup annId = some a ∧ a.deleted = false ∧
    esm.lookup annId = some (some a.updated)

/-- The disposition `eat` computes for a task, when its payload carries an
annotation id. -/
def taskDisposition (dbm : List (String × Annot)) (esm : List (String × Option Nat))
    (m : Task) : Option Disposition :=
  (m.kwargs.lookup "annotation_id").map (classifyTask dbm esm)

/-! ### Concrete fixtures used by witnesses and counterexamples -/

/-- A parse function standing in for `isoparse` in concrete runs. -/
def parse0 : String → Nat := fun s => s.length

/-- A task referencing annotation `"a1"`, due since time 1. -/
def tA : Task :=
  { id := 1, enqueued_at := 0, scheduled_at := 0, tag := "sync", kwargs := [("annotation_id", "a1")] }

/-- A second, later task referencing the same annotation `"a1"`. -/
def tB : Task :=
  { id := 2, enqueued_at := 1, scheduled_at := 0, tag := "sync", kwargs := [("annotation_id", "a1")] }

/-- A task whose payload lacks the `"annotation_id"` key. -/
def tBad : Task :=
  { id := 3, enqueued_at := 0, scheduled_at := 0, tag := "sync", kwargs := [] }

/-- The primary-store row for `"a1"`: present, not deleted, `updated = 3`. -/
def annA : Annot := { id := "a1", updated := 3, deleted := false }

theorem classifyTask_obsolete_iff (dbm : List (String × Annot))
    (esm : List (String × Option Nat)) (annId : String) :
    classifyTask dbm esm annId = .obsolete ↔ ObsoleteSpec dbm annId := by
  unfold classifyTask ObsoleteSpec
  cases h : dbm.lookup annId with
  | none => simp
  | some a =>
    by_cases hd : a.deleted
    · simp [hd]
    · cases he : esm.lookup annId with
      | none => simp [hd]
      | some u =>
        by_cases hu : u = some a.updated <;> simp [hd, hu]

theorem classifyTask_needsIndex_iff (dbm : List (String × Annot))
    (esm : List (String × Option Nat)) (annId : String) :
    classifyTask dbm esm annId = .needsIndex ↔ NeedsIndexSpec dbm esm annId := by
  unfold classifyTask NeedsIndexSpec
  cases h : dbm.lookup annId with
  | none => simp
  | some a =>
    by_cases hd : a.deleted
    · simp [hd]
    · cases he : esm.lookup annId with
      | none => simp [hd]
      | some u =>
        by_cases hu : u = some a.updated <;> simp [hd, hu]

theorem classifyTask_consistent_iff (dbm : List (String × Annot))
    (esm : List (String × Option Nat)) (annId : String) :
    classifyTask dbm esm annId = .consistent ↔ ConsistentSpec dbm esm annId := by
  unfold classifyTask ConsistentSpec
  cases h : dbm.lookup annId with
  | none => simp
  | some a =>
    by_cases hd : a.deleted
    · simp [hd]
    · cases he : esm.lookup annId with
      | none => simp [hd]
      | some u =>
        by_cases hu : u = some a.updated <;> simp [hd, hu]

/-! ### Helper lemmas about the loop and the fallible comprehension -/

theorem eatLoop_ok_filter (dbm : List (String × Annot))
    (esm : List (String × Option Nat)) (msgs d ti s : List Task)
    (h : eatLoop dbm esm msgs = .ok (d, ti, s)) :
    d = msgs.filter (fun m => taskDisposition dbm esm m == some .obsolete) ∧
    ti = msgs.filter (fun m => taskDisposition dbm esm m == some .needsIndex) ∧
    s = msgs.filter (fun m => taskDisposition dbm esm m == some .consistent) := by
  induction msgs generalizing d ti s with
  | nil =>
    simp only [eatLoop] at h
    cases h
    simp
  | cons m ms ih =>
    cases hid : lookupAnnotationId m with
    | error e => simp [eatLoop, hid] at h
    | ok annId =>
      cases hrec : eatLoop dbm esm ms with
      | error e => simp [eatLoop, hid, hrec] at h
      | ok triple =>
        obtain ⟨d0, ti0, s0⟩ := triple
        obtain ⟨hd0, hti0, hs0⟩ := ih d0 ti0 s0 hrec
        have hdisp : taskDisposition dbm esm m = some (classifyTask dbm esm annId) := by
          unfold taskDisposition
          unfold lookupAnnotationId at hid
          cases hk : m.kwargs.lookup "annotation_id" with
          | none => rw [hk] at hid; cases hid
          | some v => rw [hk] at hid; cases hid; simp
        cases hcls : classifyTask dbm esm annId with
        | obsolete =>
          simp [eatLoop, hid, hrec, hcls] at h
          obtain ⟨hd, hti, hs⟩ := h
          subst hd hti hs
          simp [List.filter_cons, hdisp, hcls, hd0, hti0, hs0]
        | needsIndex =>
          simp [eatLoop, hid, hrec, hcls] at h
          obtain ⟨hd, hti, hs⟩ := h
          subst hd hti hs
          simp [List.filter_cons, hdisp, hcls, hd0, hti0, hs0]
        | consistent =>
          simp [eatLoop, hid, hrec, hcls] at h
          obtain ⟨hd, hti, hs⟩ := h
          subst hd hti hs
          simp [List.filter_cons, hdisp, hcls, hd0, hti0, hs0]

theorem eatLoop_ok_annId (dbm : List (String × Annot))
    (esm : List (String × Option Nat)) (msgs d ti s : List Task)
    (h : eatLoop dbm esm msgs = .ok (d, ti, s)) (m : Task) (hm : m ∈ msgs) :
    ∃ annId, m.kwargs.lookup "annotation_id" = some annId := by
  induction msgs generalizing d ti s with
  | nil => cases hm
  | cons m0 ms ih =>
    cases hid : lookupAnnotationId m0 with
    | error e => simp [eatLoop, hid] at h
    | ok annId =>
      cases hrec : eatLoop dbm esm ms with
      | error e => simp [eatLoop, hid, hrec] at h
      | ok triple =>
        obtain ⟨d0, ti0, s0⟩ := triple
        rcases List.mem_cons.mp hm with hm0 | hms
        · subst hm0
          unfold lookupAnnotationId at hid
          cases hk : m.kwargs.lookup "annotation_id" with
          | none => rw [hk] at hid; cases hid
          | some v => exact ⟨v, rfl⟩
        · exact ih d0 ti0 s0 hrec hms

theorem mapExcept_ok_forward (f : α → Except String β) (l : List α)
    (bs : List β) (h : mapExcept f l = .ok bs) (a : α) (ha : a ∈ l) :
    ∃ b ∈ bs, f a = .ok b := by
  induction l generalizing bs with
  | nil => cases ha
  | cons x xs ih =>
    simp only [mapExcept] at h
    cases hx : f x with
    | error e => rw [hx] at h; cases h
    | ok b =>
      rw [hx] at h
      cases hr : mapExcept f xs with
      | error e => rw [hr] at h; cases h
      | ok bs0 =>
        rw [hr] at h
        cases h
        rcases List.mem_cons.mp ha with rfl | has
        · exact ⟨b, List.mem_cons_self _ _, hx⟩
        · obtain ⟨b0, hb0, hfb0⟩ := ih bs0 hr has
          exact ⟨b0, List.mem_cons_of_mem _ hb0, hfb0⟩

theorem mapExcept_ok_backward (f : α → Except String β) (l : List α)
    (bs : List β) (h : mapExcept f l = .ok bs) (b : β) (hb : b ∈ bs) :
    ∃ a ∈ l, f a = .ok b := by
  induction l generalizing bs with
  | nil =>
    simp only [mapExcept] at h
    cases h
    cases hb
  | cons x xs ih =>
    simp only [mapExcept] at h
    cases hx : f x with
    | error e => rw [hx] at h; cases h
    | ok b0 =>
      rw [hx] at h
      cases hr : mapExcept f xs with
      | error e => rw [hr] at h; cases h
      | ok bs0 =>
        rw [hr] at h
        cases h
        rcases List.mem_cons.mp hb with rfl | hbs
        · exact ⟨x, List.mem_cons_self _ _, hx⟩
        · obtain ⟨a0, ha0, hfa0⟩ := ih bs0 hr hbs
          exact ⟨a0, List.mem_cons_of_mem _ ha0, hfa0⟩

theorem mapExcept_error_of_mem (f : α → Except String β) (l : List α)
    (a : α) (ha : a ∈ l) (e : String) (hf : f a = .error e) :
    ∃ e0, mapExcept f l = .error e0 := by
  induction l with
  | nil => cases ha
  | cons x xs ih =>
    rcases List.mem_cons.mp ha with rfl | has
    · exact ⟨e, by simp [mapExcept, hf]⟩
    · cases hx : f x with
      | error e1 => exact ⟨e1, by simp [mapExcept, hx]⟩
      | ok b =>
        obtain ⟨e0, he0⟩ := ih has
        exact ⟨e0, by simp [mapExcept, hx, he0]⟩

theorem mapExcept_ok_of_lookup (msgs : List Task)
    (h : ∀ m ∈ msgs, ∃ annId, m.kwargs.lookup "annotation_id" = some annId) :
    ∃ ids, mapExcept lookupAnnotationId msgs = .ok ids := by
  induction msgs with
  | nil => exact ⟨[], rfl⟩
  | cons m ms ih =>
    obtain ⟨annId, hid⟩ := h m (List.mem_cons_self _ _)
    obtain ⟨ids, hids⟩ := ih (fun x hx => h x (List.mem_cons_of_mem _ hx))
    exact ⟨annId :: ids, by simp [mapExcept, lookupAnnotationId, hid, hids]⟩

theorem eat_ok_cases (parse : String → Nat) (queue : List Task)
    (now limit : Nat) (db : List Annot) (es : List EsHit)
    (ids : List String) (d ti s : List Task)
    (hne : getMessagesFromQueue queue now limit ≠ [])
    (hids : mapExcept lookupAnnotationId (getMessagesFromQueue queue now limit) =
      .ok ids)
    (hloop : eatLoop (getAnnotationsFromDb db ids) (getAnnotationsFromEs parse es ids)
      (getMessagesFromQueue queue now limit) = .ok (d, ti, s)) :
    (ti = [] → eat parse queue now limit db es =
      { effects := [Effect.fetchDb ids, Effect.fetchEs ids] ++
          (d ++ s).map Effect.deleteTask,
        error := none }) ∧
    (ti ≠ [] → ∃ tids, mapExcept lookupAnnotationId ti = .ok tids ∧
      eat parse queue now limit db es =
      { effects := [Effect.fetchDb ids, Effect.fetchEs ids] ++
          (d ++ s).map Effect.deleteTask ++ [Effect.indexCall tids],
        error := none }) := by
  have hne' : (getMessagesFromQueue queue now limit).isEmpty = false := by
    simpa [List.isEmpty_iff] using hne
  constructor
  · intro hti
    subst hti
    simp [eat, hne', hids, hloop]
  · intro hti
    have hmem : ∀ m ∈ ti, ∃ annId, m.kwargs.lookup "annotation_id" = some annId := by
      intro m hm
      obtain ⟨hd0, hti0, hs0⟩ :=
        eatLoop_ok_filter _ _ _ _ _ _ hloop
      have hmsg : m ∈ getMessagesFromQueue queue now limit := by
        subst hti0
        exact List.mem_of_mem_filter hm
      exact eatLoop_ok_annId _ _ _ _ _ _ hloop m hmsg
    obtain ⟨tids, htids⟩ := mapExcept_ok_of_lookup ti hmem
    refine ⟨tids, htids, ?_⟩
    have hti' : ti.isEmpty = false := by simpa [List.isEmpty_iff] using hti
    simp [eat, hne', hids, hloop, hti', htids]

/-! ### C1 -/

/-- C1: for every claimed batch processed by `eat`, each task is assigned
exactly one disposition — it lands in exactly one of the `deleted`,
`to_index`, `succeeded` lists — and the list it lands in is: obsolete when
the entity is absent from the primary-store result or its deleted flag is
set; otherwise needs-index when the entity is absent from the index result or
the index `updated` marker differs by inequality from the primary one;
otherwise already-consistent. -/
theorem eat_assigns_exactly_one_disposition
    (dbm : List (String × Annot)) (esm : List (String × Option Nat))
    (msgs d ti s : List Task)
    (h : eatLoop dbm esm msgs = Except.ok (d, ti, s))
    (m : Task) (hm : m ∈ msgs) :
    ∃ annId, m.kwargs.lookup "annotation_id" = some annId ∧
      ((m ∈ d ∧ m ∉ ti ∧ m ∉ s) ∨ (m ∉ d ∧ m ∈ ti ∧ m ∉ s) ∨
        (m ∉ d ∧ m ∉ ti ∧ m ∈ s)) ∧
      (m ∈ d ↔ ObsoleteSpec dbm annId) ∧
      (m ∈ ti ↔ NeedsIndexSpec dbm esm annId) ∧
      (m ∈ s ↔ ConsistentSpec dbm esm annId) := by
  obtain ⟨annId, hid⟩ := eatLoop_ok_annId dbm esm msgs d ti s h m hm
  obtain ⟨hd, hti, hs⟩ := eatLoop_ok_filter dbm esm msgs d ti s h
  have hdisp : taskDisposition dbm esm m = some (classifyTask dbm esm annId) := by
    unfold taskDisposition
    rw [hid]
    rfl
  have hmd : m ∈ d ↔ classifyTask dbm esm annId = .obsolete := by
    subst hd
    simp [List.mem_filter, hm, hdisp]
  have hmti : m ∈ ti ↔ classifyTask dbm esm annId = .needsIndex := by
    subst hti
    simp [List.mem_filter, hm, hdisp]
  have hms : m ∈ s ↔ classifyTask dbm esm annId = .consistent := by
    subst hs
    simp [List.mem_filter, hm, hdisp]
  refine ⟨annId, hid, ?_, ?_, ?_, ?_⟩
  · cases hcls : classifyTask dbm esm annId with
    | obsolete => simp [hmd, hmti, hms, hcls]
    | needsIndex => simp [hmd, hmti, hms, hcls]
    | consistent => simp [hmd, hmti, hms, hcls]
  · rw [hmd, classifyTask_obsolete_iff]
  · rw [hmti, classifyTask_needsIndex_iff]
  · rw [hms, classifyTask_consistent_iff]

/-- C1 witness: a concrete batch with one task whose entity exists undeleted
and is absent from the index, classified needs-index and nothing else. -/
theorem eat_assigns_exactly_one_disposition_witness :
    ∃ annId, tA.kwargs.lookup "annotation_id" = some annId ∧
      ((tA ∈ ([] : List Task) ∧ tA ∉ [tA] ∧ tA ∉ ([] : List Task)) ∨
        (tA ∉ ([] : List Task) ∧ tA ∈ [tA] ∧ tA ∉ ([] : List Task)) ∨
        (tA ∉ ([] : List Task) ∧ tA ∉ [tA] ∧ tA ∈ ([] : List Task))) ∧
      (tA ∈ ([] : List Task) ↔ ObsoleteSpec [("a1", annA)] annId) ∧
      (tA ∈ [tA] ↔ NeedsIndexSpec [("a1", annA)] [] annId) ∧
      (tA ∈ ([] : List Task) ↔ ConsistentSpec [("a1", annA)] [] annId) :=
  eat_assigns_exactly_one_disposition [("a1", annA)] [] [tA] [] [tA] []
    (by rfl) tA (by simp)

theorem lookupAnnotationId_ok_iff (m : Task) (v : String) :
    lookupAnnotationId m = .ok v ↔ m.kwargs.lookup "annotation_id" = some v := by
  unfold lookupAnnotationId
  cases h : m.kwargs.lookup "annotation_id" <;> simp

theorem mem_lookup_of_mapExcept_ok (msgs : List Task) (ids : List String)
    (h : mapExcept lookupAnnotationId msgs = .ok ids) (m : Task) (hm : m ∈ msgs) :
    ∃ v, m.kwargs.lookup "annotation_id" = some v := by
  obtain ⟨b, _, hfb⟩ := mapExcept_ok_forward _ _ _ h m hm
  exact ⟨b, (lookupAnnotationId_ok_iff m b).mp hfb⟩

theorem eatLoop_ok_of_lookup (dbm : List (String × Annot))
    (esm : List (String × Option Nat)) (msgs : List Task)
    (h : ∀ m ∈ msgs, ∃ annId, m.kwargs.lookup "annotation_id" = some annId) :
    ∃ d ti s, eatLoop dbm esm msgs = .ok (d, ti, s) := by
  induction msgs with
  | nil => exact ⟨[], [], [], rfl⟩
  | cons m ms ih =>
    obtain ⟨annId, hid⟩ := h m (List.mem_cons_self _ _)
    obtain ⟨d, ti, s, hrec⟩ := ih (fun x hx => h x (List.mem_cons_of_mem _ hx))
    have hid' : lookupAnnotationId m = .ok annId :=
      (lookupAnnotationId_ok_iff m annId).mpr hid
    cases hcls : classifyTask dbm esm annId with
    | obsolete => exact ⟨m :: d, ti, s, by simp [eatLoop, hid', hrec, hcls]⟩
    | needsIndex => exact ⟨d, m :: ti, s, by simp [eatLoop, hid', hrec, hcls]⟩
    | consistent => exact ⟨d, ti, m :: s, by simp [eatLoop, hid', hrec, hcls]⟩

/-! ### C7 -/

/-- C7: when the claim query returns no tasks, `eat` returns immediately
having performed no primary-store read, no index read, no index write and no
queue deletion, and the queue is unchanged; in particular a run over an
already empty queue changes nothing. -/
theorem eat_noop_when_no_tasks (parse : String → Nat) (queue : List Task)
    (now limit : Nat) (db : List Annot) (es : List EsHit)
    (h : getMessagesFromQueue queue now limit = []) :
    eat parse queue now limit db es = { effects := [], error := none } ∧
    queueAfter queue (eat parse queue now limit db es) = queue := by
  have h' : (getMessagesFromQueue queue now limit).isEmpty = true := by
    simp [List.isEmpty_iff, h]
  have he : eat parse queue now limit db es = { effects := [], error := none } := by
    simp [eat, h']
  refine ⟨he, ?_⟩
  rw [he]
  simp [queueAfter]

/-- C7 witness: `eat` over an empty queue is a complete no-op. -/
theorem eat_noop_when_no_tasks_witness :
    eat parse0 [] 7 5 [annA] [] = { effects := [], error := none } ∧
    queueAfter [] (eat parse0 [] 7 5 [annA] []) = [] :=
  eat_noop_when_no_tasks parse0 [] 7 5 [annA] [] (by rfl)

/-! ### C8 -/

/-- C8: if some claimed task's payload lacks the `"annotation_id"` key, `eat`
raises before performing any effect at all — no queue deletion and no index
write have happened — so the claimed batch and the whole queue are left
unchanged. -/
theorem eat_raises_on_malformed_payload (parse : String → Nat)
    (queue : List Task) (now limit : Nat) (db : List Annot) (es : List EsHit)
    (m : Task) (hm : m ∈ getMessagesFromQueue queue now limit)
    (hmal : m.kwargs.lookup "annotation_id" = none) :
    (∃ e, eat parse queue now limit db es = { effects := [], error := some e }) ∧
    queueAfter queue (eat parse queue now limit db es) = queue := by
  have hne' : (getMessagesFromQueue queue now limit).isEmpty = false := by
    cases hq : getMessagesFromQueue queue now limit with
    | nil => rw [hq] at hm; cases hm
    | cons x xs => simp
  have hferr : lookupAnnotationId m = .error "KeyError: annotation_id" := by
    unfold lookupAnnotationId
    rw [hmal]
  obtain ⟨e0, he0⟩ := mapExcept_error_of_mem lookupAnnotationId _ m hm _ hferr
  have he : eat parse queue now limit db es = { effects := [], error := some e0 } := by
    simp [eat, hne', he0]
  refine ⟨⟨e0, he⟩, ?_⟩
  rw [he]
  simp [queueAfter]

/-- C8 witness: one due task whose payload is the empty map. -/
theorem eat_raises_on_malformed_payload_witness :
    (∃ e, eat parse0 [tBad] 5 10 [annA] [] = { effects := [], error := some e }) ∧
    queueAfter [tBad] (eat parse0 [tBad] 5 10 [annA] []) = [tBad] :=
  eat_raises_on_malformed_payload parse0 [tBad] 5 10 [annA] [] tBad
    (by decide) (by rfl)

theorem not_mem_queueAfter (queue : List Task) (tr : EatTrace) (m : Task)
    (h : Effect.deleteTask m ∈ tr.effects) : m ∉ queueAfter queue tr := by
  intro hmem
  unfold queueAfter at hmem
  rw [List.mem_filter] at hmem
  have hp := hmem.2
  simp at hp
  exact hp h

theorem mem_queueAfter (queue : List Task) (tr : EatTrace) (m : Task)
    (hq : m ∈ queue) (h : Effect.deleteTask m ∉ tr.effects) :
    m ∈ queueAfter queue tr := by
  unfold queueAfter
  rw [List.mem_filter]
  exact ⟨hq, by simpa using h⟩

/-! ### C6 -/

/-- C6: every claimed task classified obsolete or already-consistent is
deleted from the queue by `eat`, and its entity id is never part of the id
list handed to the batch indexer. -/
theorem obsolete_and_consistent_deleted_never_indexed (parse : String → Nat)
    (queue : List Task) (now limit : Nat) (db : List Annot) (es : List EsHit)
    (ids : List String) (m : Task) (annId : String)
    (hids : mapExcept lookupAnnotationId (getMessagesFromQueue queue now limit) =
      .ok ids)
    (hm : m ∈ getMessagesFromQueue queue now limit)
    (hid : m.kwargs.lookup "annotation_id" = some annId)
    (hcls : classifyTask (getAnnotationsFromDb db ids)
      (getAnnotationsFromEs parse es ids) annId ≠ Disposition.needsIndex) :
    Effect.deleteTask m ∈ (eat parse queue now limit db es).effects ∧
    m ∉ queueAfter queue (eat parse queue now limit db es) ∧
    ∀ l, Effect.indexCall l ∈ (eat parse queue now limit db es).effects →
      annId ∉ l := by
  have hne : getMessagesFromQueue queue now limit ≠ [] := by
    cases hq : getMessagesFromQueue queue now limit with
    | nil => rw [hq] at hm; cases hm
    | cons x xs => simp
  obtain ⟨d, ti, s, hloop⟩ := eatLoop_ok_of_lookup (getAnnotationsFromDb db ids)
    (getAnnotationsFromEs parse es ids) _
    (fun x hx => mem_lookup_of_mapExcept_ok _ _ hids x hx)
  obtain ⟨hcase0, hcase1⟩ := eat_ok_cases parse queue now limit db es ids d ti s
    hne hids hloop
  obtain ⟨hd, hti, hs⟩ := eatLoop_ok_filter _ _ _ _ _ _ hloop
  have hdisp : taskDisposition (getAnnotationsFromDb db ids)
      (getAnnotationsFromEs parse es ids) m =
      some (classifyTask (getAnnotationsFromDb db ids)
        (getAnnotationsFromEs parse es ids) annId) := by
    unfold taskDisposition
    rw [hid]
    rfl
  have hmds : m ∈ d ++ s := by
    rw [List.mem_append]
    cases hc : classifyTask (getAnnotationsFromDb db ids)
        (getAnnotationsFromEs parse es ids) annId with
    | obsolete =>
      left
      subst hd
      simp [List.mem_filter, hm, hdisp, hc]
    | needsIndex => exact absurd hc hcls
    | consistent =>
      right
      subst hs
      simp [List.mem_filter, hm, hdisp, hc]
  have hnotti : ∀ l tids, mapExcept lookupAnnotationId ti = .ok tids →
      l = tids → annId ∉ l := by
    intro l tids htids hl hmem
    subst hl
    obtain ⟨m0, hm0, hfm0⟩ := mapExcept_ok_backward _ _ _ htids annId hmem
    have hm0id : m0.kwargs.lookup "annotation_id" = some annId :=
      (lookupAnnotationId_ok_iff m0 annId).mp hfm0
    have hdisp0 : taskDisposition (getAnnotationsFromDb db ids)
        (getAnnotationsFromEs parse es ids) m0 =
        some (classifyTask (getAnnotationsFromDb db ids)
          (getAnnotationsFromEs parse es ids) annId) := by
      unfold taskDisposition
      rw [hm0id]
      rfl
    rw [hti] at hm0
    rw [List.mem_filter] at hm0
    have := hm0.2
    rw [hdisp0] at this
    simp at this
    exact hcls this
  by_cases hti0 : ti = []
  · have he := hcase0 hti0
    have hdel : Effect.deleteTask m ∈ (eat parse queue now limit db es).effects := by
      rw [he]
      exact List.mem_append_right _ (List.mem_map_of_mem _ hmds)
    refine ⟨hdel, not_mem_queueAfter queue _ m hdel, ?_⟩
    intro l hl
    rw [he] at hl
    simp at hl
  · obtain ⟨tids, htids, he⟩ := hcase1 hti0
    have hdel : Effect.deleteTask m ∈ (eat parse queue now limit db es).effects := by
      rw [he]
      exact List.mem_append_left _
        (List.mem_append_right _ (List.mem_map_of_mem _ hmds))
    refine ⟨hdel, not_mem_queueAfter queue _ m hdel, ?_⟩
    intro l hl
    rw [he] at hl
    simp at hl
    exact hnotti l tids htids hl

/-- C6 witness: a task whose entity is present with the index already
carrying an equal `updated` marker is already-consistent: it is deleted and
its id is passed to no index call. -/
theorem obsolete_and_consistent_deleted_never_indexed_witness :
    Effect.deleteTask tA ∈
      (eat parse0 [tA] 5 10 [annA] [⟨"a1", some "abc"⟩]).effects ∧
    tA ∉ queueAfter [tA] (eat parse0 [tA] 5 10 [annA] [⟨"a1", some "abc"⟩]) ∧
    ∀ l, Effect.indexCall l ∈
        (eat parse0 [tA] 5 10 [annA] [⟨"a1", some "abc"⟩]).effects →
      "a1" ∉ l :=
  obsolete_and_consistent_deleted_never_indexed parse0 [tA] 5 10 [annA]
    [⟨"a1", some "abc"⟩] ["a1"] tA "a1" (by rfl) (by decide) (by rfl) (by decide)

/-! ### C2 -/

/-- C2 counterexample: a single task whose entity exists undeleted and is
absent from the index is classified needs-index and the batch indexer is
invoked on its id, yet `eat` leaves the task in the queue — no deletion
happens for it in that tick. -/
theorem needs_index_task_not_deleted_cex :
    eat parse0 [tA] 5 10 [annA] [] =
      { effects := [Effect.fetchDb ["a1"], Effect.fetchEs ["a1"],
          Effect.indexCall ["a1"]],
        error := none } ∧
    tA ∈ queueAfter [tA] (eat parse0 [tA] 5 10 [annA] []) := by
  constructor
  · rfl
  · decide

/-- C2 amended: in every poll tick, each task classified needs-index has the
batch indexer invoked on its entity id, but the task is NOT deleted from the
queue in that tick — it stays queued (to be reconciled on a later tick once
the index write is visible). -/
theorem needs_index_indexed_but_kept (parse : String → Nat)
    (queue : List Task) (now limit : Nat) (db : List Annot) (es : List EsHit)
    (ids : List String) (m : Task) (annId : String)
    (hids : mapExcept lookupAnnotationId (getMessagesFromQueue queue now limit) =
      .ok ids)
    (hm : m ∈ getMessagesFromQueue queue now limit)
    (hid : m.kwargs.lookup "annotation_id" = some annId)
    (hcls : classifyTask (getAnnotationsFromDb db ids)
      (getAnnotationsFromEs parse es ids) annId = Disposition.needsIndex) :
    (∃ l, Effect.indexCall l ∈ (eat parse queue now limit db es).effects ∧
      annId ∈ l) ∧
    Effect.deleteTask m ∉ (eat parse queue now limit db es).effects ∧
    (m ∈ queue → m ∈ queueAfter queue (eat parse queue now limit db es)) := by
  have hne : getMessagesFromQueue queue now limit ≠ [] := by
    cases hq : getMessagesFromQueue queue now limit with
    | nil => rw [hq] at hm; cases hm
    | cons x xs => simp
  obtain ⟨d, ti, s, hloop⟩ := eatLoop_ok_of_lookup (getAnnotationsFromDb db ids)
    (getAnnotationsFromEs parse es ids) _
    (fun x hx => mem_lookup_of_mapExcept_ok _ _ hids x hx)
  obtain ⟨hcase0, hcase1⟩ := eat_ok_cases parse queue now limit db es ids d ti s
    hne hids hloop
  obtain ⟨hd, hti, hs⟩ := eatLoop_ok_filter _ _ _ _ _ _ hloop
  have hdisp : taskDisposition (getAnnotationsFromDb db ids)
      (getAnnotationsFromEs parse es ids) m =
      some (classifyTask (getAnnotationsFromDb db ids)
        (getAnnotationsFromEs parse es ids) annId) := by
    unfold taskDisposition
    rw [hid]
    rfl
  have hmti : m ∈ ti := by
    rw [hti, List.mem_filter]
    refine ⟨hm, ?_⟩
    rw [hdisp, hcls]
    simp
  have hnotd : m ∉ d := by
    rw [hd, List.mem_filter]
    intro hcontra
    have hc := hcontra.2
    rw [hdisp] at hc
    simp at hc
    rw [hcls] at hc
    exact Disposition.noConfusion hc
  have hnots : m ∉ s := by
    rw [hs, List.mem_filter]
    intro hcontra
    have hc := hcontra.2
    rw [hdisp] at hc
    simp at hc
    rw [hcls] at hc
    exact Disposition.noConfusion hc
  have hti0 : ti ≠ [] := by
    intro h0
    rw [h0] at hmti
    cases hmti
  obtain ⟨tids, htids, he⟩ := hcase1 hti0
  have hmid : annId ∈ tids := by
    obtain ⟨b, hb, hfb⟩ := mapExcept_ok_forward _ _ _ htids m hmti
    have : m.kwargs.lookup "annotation_id" = some b :=
      (lookupAnnotationId_ok_iff m b).mp hfb
    rw [hid] at this
    cases this
    exact hb
  have hnotdel : Effect.deleteTask m ∉ (eat parse queue now limit db es).effects := by
    intro hdel
    rw [he] at hdel
    simp at hdel
    rcases hdel with h1 | h2
    · exact hnotd h1
    · exact hnots h2
  refine ⟨⟨tids, ?_, hmid⟩, hnotdel, fun hq => mem_queueAfter queue _ m hq hnotdel⟩
  rw [he]
  exact List.mem_append_right _ (List.mem_cons_self _ _)

/-- C2 amended witness: the concrete needs-index run of the counterexample,
through the amended theorem. -/
theorem needs_index_indexed_but_kept_witness :
    (∃ l, Effect.indexCall l ∈ (eat parse0 [tA] 5 10 [annA] []).effects ∧
      "a1" ∈ l) ∧
    Effect.deleteTask tA ∉ (eat parse0 [tA] 5 10 [annA] []).effects ∧
    (tA ∈ [tA] → tA ∈ queueAfter [tA] (eat parse0 [tA] 5 10 [annA] [])) :=
  needs_index_indexed_but_kept parse0 [tA] 5 10 [annA] [] ["a1"] tA "a1"
    (by rfl) (by decide) (by rfl) (by rfl)

theorem mapExcept_ok_length (f : α → Except String β) (l : List α)
    (bs : List β) (h : mapExcept f l = .ok bs) : bs.length = l.length := by
  induction l generalizing bs with
  | nil =>
    simp only [mapExcept] at h
    cases h
    rfl
  | cons x xs ih =>
    simp only [mapExcept] at h
    cases hx : f x with
    | error e => rw [hx] at h; cases h
    | ok b =>
      rw [hx] at h
      cases hr : mapExcept f xs with
      | error e => rw [hr] at h; cases h
      | ok bs0 =>
        rw [hr] at h
        cases h
        simp [ih bs0 hr]

/-! ### C3 -/

/-- C3 counterexample: two claimed tasks referencing the same entity id
`"a1"`, both classified needs-index; the id list handed to the batch indexer
contains `"a1"` twice (no de-duplication), and neither referencing task is
deleted from the queue. -/
theorem duplicate_ids_not_deduplicated_cex :
    Effect.indexCall ["a1", "a1"] ∈
      (eat parse0 [tA, tB] 5 10 [annA] []).effects ∧
    (["a1", "a1"].count "a1" = 2) ∧
    tA ∈ queueAfter [tA, tB] (eat parse0 [tA, tB] 5 10 [annA] []) ∧
    tB ∈ queueAfter [tA, tB] (eat parse0 [tA, tB] 5 10 [annA] []) := by
  decide

/-- C3 amended: when several tasks of one claimed batch are classified
needs-index, the id list passed to the batch indexer has one entry per
referencing task, in order — a duplicated entity id appears once per task,
not once — and none of the referencing tasks is deleted in that tick. -/
theorem needs_index_ids_one_per_task (parse : String → Nat)
    (queue : List Task) (now limit : Nat) (db : List Annot) (es : List EsHit)
    (ids : List String) (d ti s : List Task)
    (hids : mapExcept lookupAnnotationId (getMessagesFromQueue queue now limit) =
      .ok ids)
    (hloop : eatLoop (getAnnotationsFromDb db ids)
      (getAnnotationsFromEs parse es ids)
      (getMessagesFromQueue queue now limit) = .ok (d, ti, s))
    (hne : ti ≠ []) :
    ∃ l, mapExcept lookupAnnotationId ti = .ok l ∧
      Effect.indexCall l ∈ (eat parse queue now limit db es).effects ∧
      l.length = ti.length ∧
      ∀ m ∈ ti, Effect.deleteTask m ∉ (eat parse queue now limit db es).effects := by
  have hmne : getMessagesFromQueue queue now limit ≠ [] := by
    intro h0
    rw [h0] at hloop
    simp only [eatLoop] at hloop
    cases hloop
    exact hne rfl
  obtain ⟨hcase0, hcase1⟩ := eat_ok_cases parse queue now limit db es ids d ti s
    hmne hids hloop
  obtain ⟨tids, htids, he⟩ := hcase1 hne
  obtain ⟨hd, hti, hs⟩ := eatLoop_ok_filter _ _ _ _ _ _ hloop
  refine ⟨tids, htids, ?_, mapExcept_ok_length _ _ _ htids, ?_⟩
  · rw [he]
    exact List.mem_append_right _ (List.mem_cons_self _ _)
  · intro m hmti hdel
    have hmm : m ∈ getMessagesFromQueue queue now limit := by
      rw [hti] at hmti
      exact List.mem_of_mem_filter hmti
    have hpred := (List.mem_filter.mp (hti ▸ hmti)).2
    have hnotd : m ∉ d := by
      rw [hd, List.mem_filter]
      intro hcontra
      have h1 := hcontra.2
      simp at h1 hpred
      rw [hpred] at h1
      simp at h1
    have hnots : m ∉ s := by
      rw [hs, List.mem_filter]
      intro hcontra
      have h1 := hcontra.2
      simp at h1 hpred
      rw [hpred] at h1
      simp at h1
    rw [he] at hdel
    simp at hdel
    rcases hdel with h1 | h2
    · exact hnotd h1
    · exact hnots h2

/-- C3 amended witness: the concrete duplicate-reference run, through the
amended theorem. -/
theorem needs_index_ids_one_per_task_witness :
    ∃ l, mapExcept lookupAnnotationId [tA, tB] = .ok l ∧
      Effect.indexCall l ∈ (eat parse0 [tA, tB] 5 10 [annA] []).effects ∧
      l.length = ([tA, tB] : List Task).length ∧
      ∀ m ∈ ([tA, tB] : List Task),
        Effect.deleteTask m ∉ (eat parse0 [tA, tB] 5 10 [annA] []).effects :=
  needs_index_ids_one_per_task parse0 [tA, tB] 5 10 [annA] []
    ["a1", "a1"] [] [tA, tB] [] (by rfl) (by rfl) (by decide)

/-! ### C4 -/

/-- C4: every claim query returns at most `limit` tasks, each returned task
has `scheduled_at` strictly before the current time, the result is ordered
ascending by `enqueued_at`, and an eligible task is returned once its
scheduled time has passed (whenever the queue fits under the limit, so the
`LIMIT` clause cannot cut it off). -/
theorem claim_query_spec (queue : List Task) (now limit : Nat) :
    (getMessagesFromQueue queue now limit).length ≤ limit ∧
    (∀ t ∈ getMessagesFromQueue queue now limit, t.scheduled_at < now) ∧
    (getMessagesFromQueue queue now limit).Pairwise byEnqueuedAt ∧
    (∀ t ∈ queue, t.scheduled_at < now → queue.length ≤ limit →
      t ∈ getMessagesFromQueue queue now limit) := by
  refine ⟨?_, ?_, ?_, ?_⟩
  · unfold getMessagesFromQueue
    rw [List.length_take]
    exact Nat.min_le_left _ _
  · intro t ht
    unfold getMessagesFromQueue dueCandidates at ht
    have h1 := List.mem_of_mem_take ht
    rw [List.mem_insertionSort byEnqueuedAt] at h1
    have h2 := List.mem_filter.mp h1
    simpa using h2.2
  · unfold getMessagesFromQueue dueCandidates
    exact List.Pairwise.sublist (List.take_sublist _ _)
      (List.sorted_insertionSort byEnqueuedAt _)
  · intro t ht hsched hlen
    unfold getMessagesFromQueue dueCandidates
    have hmemf : t ∈ queue.filter (fun t => t.scheduled_at < now) :=
      List.mem_filter.mpr ⟨ht, by simpa using hsched⟩
    have hmems : t ∈ (queue.filter (fun t => t.scheduled_at < now)).insertionSort
        byEnqueuedAt := (List.mem_insertionSort byEnqueuedAt).mpr hmemf
    have hlens : ((queue.filter (fun t => t.scheduled_at < now)).insertionSort
        byEnqueuedAt).length ≤ limit := by
      have hp := List.perm_insertionSort byEnqueuedAt
        (queue.filter (fun t => t.scheduled_at < now))
      rw [hp.length_eq]
      exact Nat.le_trans (List.length_filter_le _ _) hlen
    rw [List.take_of_length_le hlens]
    exact hmems

/-- C4 witness: with two due tasks enqueued out of order and a limit of 2,
the earlier-enqueued task is returned. -/
theorem claim_query_spec_witness :
    tA ∈ getMessagesFromQueue [tB, tA] 5 2 :=
  (claim_query_spec [tB, tA] 5 2).2.2.2 tA (by decide) (by decide) (by decide)

/-! ### C9 -/

/-- C9: `add_all` appends exactly one task per annotation id, leaving the
existing queue rows untouched: the i-th new row carries the given tag, the
payload `{"annotation_id": ids[i]}` and the given `scheduled_at`, defaulting
to the creation time when omitted; and `add` inserts exactly what
`add_all` of the singleton list inserts. -/
theorem add_all_spec (queue : List Task) (annotation_ids : List String)
    (tag : String) (scheduled_at : Option Nat) (now firstId : Nat) :
    (add_all queue annotation_ids tag scheduled_at now firstId).length =
      queue.length + annotation_ids.length ∧
    (add_all queue annotation_ids tag scheduled_at now firstId).take
      queue.length = queue ∧
    (∀ i a, annotation_ids[i]? = some a →
      (add_all queue annotation_ids tag scheduled_at now firstId)[queue.length + i]? =
        some { id := firstId + i, enqueued_at := now,
               scheduled_at := match scheduled_at with | some t => t | none => now,
               tag := tag, kwargs := [("annotation_id", a)] }) ∧
    (∀ a0, add queue a0 tag scheduled_at now firstId =
      add_all queue [a0] tag scheduled_at now firstId) := by
  refine ⟨?_, ?_, ?_, fun a0 => rfl⟩
  · simp [add_all]
  · unfold add_all
    exact List.take_left _ _
  · intro i a ha
    have hi : i < annotation_ids.length := by
      rw [List.getElem?_eq_some_iff] at ha
      exact ha.1
    unfold add_all
    rw [List.getElem?_append_right (by simp)]
    simp only [Nat.add_sub_cancel_left]
    rw [List.getElem?_map]
    have hz : ((List.range annotation_ids.length).zip annotation_ids)[i]? =
        some (i, a) :=
      List.getElem?_zip_eq_some.mpr ⟨List.getElem?_range hi, ha⟩
    rw [hz]
    rfl

/-- C9 witness: `add_all` over an empty queue with two ids and no explicit
schedule places the second new task at position 1, scheduled at the
creation time. -/
theorem add_all_spec_witness :
    (add_all [] ["a1", "b2"] "sync" none 4 10)[1]? =
      some { id := 11, enqueued_at := 4, scheduled_at := 4, tag := "sync",
             kwargs := [("annotation_id", "b2")] } :=
  (add_all_spec [] ["a1", "b2"] "sync" none 4 10).2.2.1 1 "b2" (by rfl)

/-! ### C10 -/

theorem lookup_getAnnotationsFromEs (parse : String → Nat) (es : List EsHit)
    (ids : List String) (h : EsHit)
    (hh : h ∈ es) (hid : h.id ∈ ids) (hnodup : (es.map EsHit.id).Nodup) :
    (getAnnotationsFromEs parse es ids).lookup h.id =
      some (match h.sourceUpdated with
            | some s => if s ≠ "" then some (parse s) else none
            | none => none) := by
  induction es with
  | nil => cases hh
  | cons h0 rest ih =>
    rw [List.map_cons, List.nodup_cons] at hnodup
    rcases List.mem_cons.mp hh with rfl | hmem
    · simp [getAnnotationsFromEs, List.filter_cons, hid]
    · have hne : h.id ≠ h0.id := by
        intro heq
        exact hnodup.1 (heq ▸ List.mem_map_of_mem EsHit.id hmem)
      have ihres := ih hmem hnodup.2
      by_cases h0in : h0.id ∈ ids
      · have hbeq : (h.id == h0.id) = false := by simpa using hne
        simp only [getAnnotationsFromEs, List.filter_cons] at ihres ⊢
        simp only [h0in, decide_True, if_true, List.map_cons, List.lookup_cons, hbeq]
        exact ihres
      · simp only [getAnnotationsFromEs, List.filter_cons] at ihres ⊢
        simp only [h0in, decide_False, Bool.false_eq_true, if_false]
        exact ihres

/-- C10: an index document returned for a claimed id whose source carries no
`updated` field is normalized to `none` by `_get_annotations_from_es`, and
since `none` differs from every present primary `updated` timestamp, `eat`
classifies the task needs-index — never already-consistent — whenever the
entity exists undeleted in the primary store. -/
theorem es_doc_without_updated_needs_index (parse : String → Nat)
    (db : List Annot) (es : List EsHit) (ids : List String) (h : EsHit)
    (a : Annot) (hh : h ∈ es) (hid : h.id ∈ ids)
    (hnodup : (es.map EsHit.id).Nodup)
    (hnone : h.sourceUpdated = none)
    (ha : (getAnnotationsFromDb db ids).lookup h.id = some a)
    (hdel : a.deleted = false) :
    (getAnnotationsFromEs parse es ids).lookup h.id = some none ∧
    classifyTask (getAnnotationsFromDb db ids) (getAnnotationsFromEs parse es ids)
      h.id = Disposition.needsIndex := by
  have hlk := lookup_getAnnotationsFromEs parse es ids h hh hid hnodup
  rw [hnone] at hlk
  refine ⟨hlk, ?_⟩
  simp [classifyTask, ha, hlk, hdel]

/-- C10 witness: a tombstone-like hit `{"deleted": true}` (no `updated`
field) for an entity that exists undeleted in Postgres. -/
theorem es_doc_without_updated_needs_index_witness :
    (getAnnotationsFromEs parse0 [⟨"a1", none⟩] ["a1"]).lookup "a1" = some none ∧
    classifyTask (getAnnotationsFromDb [annA] ["a1"])
      (getAnnotationsFromEs parse0 [⟨"a1", none⟩] ["a1"]) "a1" =
      Disposition.needsIndex :=
  es_doc_without_updated_needs_index parse0 [annA] [⟨"a1", none⟩] ["a1"]
    ⟨"a1", none⟩ annA (by decide) (by decide) (by decide) (by rfl) (by rfl)
    (by rfl)

/-! ### C5 -/

theorem claimStep_preserves_disjoint (s s' : ClaimSys) (h : ClaimStep s s')
    (hinv : ∀ x ∈ s.c1.acquired, x ∉ s.c2.acquired) :
    ∀ x ∈ s'.c1.acquired, x ∉ s'.c2.acquired := by
  cases h with
  | acq1 t rest hp hlim h1 h2 =>
    intro x hx
    simp only [List.mem_append, List.mem_singleton] at hx
    rcases hx with hx | rfl
    · exact hinv x hx
    · exact h2
  | skip1 t rest hp h2 => exact hinv
  | acq2 t rest hp hlim h1 h2 =>
    intro x hx hx2
    simp only [List.mem_append, List.mem_singleton] at hx2
    rcases hx2 with hx2 | rfl
    · exact hinv x hx hx2
    · exact h1 hx
  | skip2 t rest hp h1 => exact hinv

/-- C5: starting from two fresh concurrent claimers over the same queue,
after any interleaving of row-granular lock/skip steps the sets of task ids
the two transactions have claimed are disjoint — a row is returned by a
claimer only if it acquired that row's lock, and a lock is held by at most
one open transaction, skip-locked scanning being what prevents overlap. -/
theorem concurrent_claims_disjoint (queue : List Task) (now lim1 lim2 : Nat)
    (s : ClaimSys)
    (h : Relation.ReflTransGen ClaimStep
      ⟨Claimer.initFor queue now lim1, Claimer.initFor queue now lim2⟩ s) :
    ∀ x ∈ s.c1.acquired, x ∉ s.c2.acquired := by
  induction h with
  | refl =>
    intro x hx
    simp [Claimer.initFor] at hx
  | tail hsteps hstep ih => exact claimStep_preserves_disjoint _ _ hstep ih

/-- C5 witness: one concrete interleaving in which the first claimer locks
the only due task, id 1; the second claimer then does not hold id 1. -/
theorem concurrent_claims_disjoint_witness :
    1 ∉ (ClaimSys.mk ⟨[], [1], 2⟩ (Claimer.initFor [tA] 5 2)).c2.acquired :=
  concurrent_claims_disjoint [tA] 5 2 2
    (ClaimSys.mk ⟨[], [1], 2⟩ (Claimer.initFor [tA] 5 2))
    (Relation.ReflTransGen.single
      (ClaimStep.acq1 ⟨Claimer.initFor [tA] 5 2, Claimer.initFor [tA] 5 2⟩ tA []
        (by rfl) (by decide) (by decide) (by decide)))
    1 (by decide)

end H
